import Mathlib

/-!
Shallow embedding of `src/main.py` (a transcript downloader): the retry
loop `fetch_with_backoff`, the timestamp formatter `decimal_to_vtt_time`,
the cue transcoder inside `process_video`, the selection-expression parser
`validate_and_parse_input`, the output-directory scanner
`get_existing_ids`, the catalog filter inside `main`, and a model of
`main`'s control flow itself.

Python string primitives are modelled by structural recursions over
`List Char`: `str.split(sep)` keeps empty fields, `str.split()` splits on
whitespace runs and drops empty fields, `int(...)` accepts an optional
sign followed by decimal digits.  Machine floats are modelled as exact
rationals, Python `int()` truncation as truncation toward zero, and
Python `//` / `%` as `Int.fdiv` / `Int.fmod` (floor division).
-/

namespace CijSubs

/-- Python whitespace for `str.split()`: space, tab, newline, carriage
return, vertical tab, form feed. -/
def pyIsSpace (c : Char) : Bool :=
  c = ' ' || c = '\t' || c = '\n' || c = '\r' || c = '\x0b' || c = '\x0c'

/-- Split a character list at every character satisfying `p`, keeping
empty fields, as Python `str.split(sep)` does.  The result is never
empty. -/
def splitOnP (p : Char → Bool) : List Char → List (List Char)
  | [] => [[]]
  | c :: rest =>
    let r := splitOnP p rest
    if p c then [] :: r
    else
      match r with
      | t :: ts => (c :: t) :: ts
      | [] => [[c]]

/-- Python `s.split(sep)` for a one-character separator. -/
def pySplitOn (s : String) (sep : Char) : List String :=
  (splitOnP (fun c => c = sep) s.toList).map String.mk

/-- Python `s.split()`: split on whitespace runs, dropping empty fields. -/
def pySplitWs (s : String) : List String :=
  ((splitOnP pyIsSpace s.toList).filter (fun t => !t.isEmpty)).map String.mk

/-- Python `s.endswith(suffix)`. -/
def pyEndsWith (s suf : String) : Bool :=
  suf.toList.reverse.isPrefixOf s.toList.reverse

/-- Value of one ASCII digit. -/
def digitVal (c : Char) : ℕ := c.toNat - 48

/-- Nonempty all-ASCII-digit string, the `\d+` of the source's regex. -/
def isDigits (s : String) : Bool :=
  !s.toList.isEmpty && s.toList.all Char.isDigit

/-- Decimal value of a digit string. -/
def digitsToNat (l : List Char) : ℕ :=
  l.foldl (fun a c => 10 * a + digitVal c) 0

/-- Python `int(token)` on a whitespace-free token: optional sign, then
one or more digits; `none` models the `ValueError` raised otherwise. -/
def pyIntParse (s : String) : Option ℤ :=
  match s.toList with
  | [] => none
  | c :: rest =>
    if c = '-' then
      if !rest.isEmpty && rest.all Char.isDigit then some (-(digitsToNat rest : ℤ)) else none
    else if c = '+' then
      if !rest.isEmpty && rest.all Char.isDigit then some (digitsToNat rest : ℤ) else none
    else if (c :: rest).all Char.isDigit then some (digitsToNat (c :: rest) : ℤ)
    else none

/-- Result of a Python call that can raise: the value, or the raised
exception's message. -/
inductive PyExcept (α : Type) where
  | ok (v : α)
  | error (e : String)
  deriving DecidableEq

/-! ## BackoffFetcher: `fetch_with_backoff` (src/main.py lines 15-29) -/

/-- Result of the retry loop: a parsed JSON value, the terminal error of
line 23 carrying the attempt count and last cause, or the implicit
`None` returned when the loop body never runs (`max_retries = 0`). -/
inductive FetchOutcome (α : Type) where
  | success (v : α)
  | failure (attempts : ℕ) (cause : String)
  | noReturn
  deriving DecidableEq

/-- Trace of one `fetch_with_backoff` call: its outcome, the sleep
durations in order, and the zero-based indices of the attempts made. -/
@[ext] structure FetchTrace (α : Type) where
  result : FetchOutcome α
  sleeps : List ℚ
  attempts : List ℕ
  deriving DecidableEq

/-- The loop body of `fetch_with_backoff`, one case per remaining fuel
unit; `stub attempt` models `session.get(url)` + `raise_for_status` +
`.json()` on that attempt, `jitter attempt` models that attempt's
`random.uniform(0, 1)` draw.  Fuel starts at `maxRetries`, matching
`for attempt in range(max_retries)`. -/
def fetchAux {α : Type} (stub : ℕ → PyExcept α) (jitter : ℕ → ℚ)
    (maxRetries : ℕ) (initialDelay : ℚ) : ℕ → ℕ → FetchTrace α
  | 0, _ => ⟨.noReturn, [], []⟩
  | fuel + 1, attempt =>
    match stub attempt with
    | .ok v => ⟨.success v, [], [attempt]⟩
    | .error e =>
      if attempt = maxRetries - 1 then
        ⟨.failure maxRetries e, [], [attempt]⟩
      else
        let d := initialDelay * 2 ^ attempt + jitter attempt
        let t := fetchAux stub jitter maxRetries initialDelay fuel (attempt + 1)
        ⟨t.result, d :: t.sleeps, attempt :: t.attempts⟩

/-- Embedding of `fetch_with_backoff` (src/main.py lines 15-29). -/
def fetch_with_backoff {α : Type} (stub : ℕ → PyExcept α) (jitter : ℕ → ℚ)
    (maxRetries : ℕ) (initialDelay : ℚ) : FetchTrace α :=
  fetchAux stub jitter maxRetries initialDelay maxRetries 0

/-! ## TranscriptTranscoder: `decimal_to_vtt_time` (lines 31-39) and the
cue loop of `process_video` (lines 47-56) -/

/-- Zero-pad a decimal string on the left to width `w`, as Python's
`{n:02d}` / `{n:03d}` field formats do. -/
def padZeros (w : ℕ) (s : String) : String :=
  String.mk (List.replicate (w - s.length) '0') ++ s

/-- Python `f"{n:0wd}"` for an integer: zero-padding goes between the
sign and the digits. -/
def pyFmt (w : ℕ) (n : ℤ) : String :=
  if n < 0 then "-" ++ padZeros (w - 1) (toString n.natAbs)
  else padZeros w (toString n.toNat)

/-- Python `int()` on a rational: truncation toward zero. -/
def pyInt (q : ℚ) : ℤ :=
  if 0 ≤ q then ⌊q⌋ else -⌊-q⌋

/-- Embedding of `decimal_to_vtt_time` (src/main.py lines 31-39).
Python `//` and `%` are floor division and floor modulo, hence
`Int.fdiv` / `Int.fmod`. -/
def decimal_to_vtt_time (decimal_seconds : ℚ) : String :=
  let seconds := pyInt decimal_seconds
  let milliseconds := pyInt ((decimal_seconds - (seconds : ℚ)) * 1000)
  let hours := Int.fdiv seconds 3600
  let minutes := Int.fdiv (Int.fmod seconds 3600) 60
  let secs := Int.fmod seconds 60
  pyFmt 2 hours ++ ":" ++ pyFmt 2 minutes ++ ":" ++ pyFmt 2 secs ++ "." ++ pyFmt 3 milliseconds

/-- The specification's formula for the timestamp: with `w` the whole
seconds, fields `w / 3600`, `(w % 3600) / 60`, `w % 60` and truncated
milliseconds, each zero-padded (2 digits for H/M/S, 3 for ms). -/
def vtt_time_spec (q : ℚ) : String :=
  let w : ℕ := ⌊q⌋.toNat
  let ms : ℕ := (⌊(q - (⌊q⌋ : ℚ)) * 1000⌋).toNat
  padZeros 2 (toString (w / 3600)) ++ ":" ++ padZeros 2 (toString ((w % 3600) / 60)) ++ ":" ++
    padZeros 2 (toString (w % 60)) ++ "." ++ padZeros 3 (toString ms)

/-- One timed cue of a transcript response: start and end seconds, text,
and the new-paragraph flag. -/
structure Cue where
  start : ℚ
  endTime : ℚ
  text : String
  newParagraph : Bool
  deriving DecidableEq

/-- The cue loop of `process_video` (src/main.py lines 47-56): starting
from `vtt = "WEBVTT\n\n"` and `raw = ""`, each enumerated cue appends its
index line, timing line, text and a blank line to `vtt`, and appends its
text to `raw`, preceded by a newline when `newParagraph` is set. -/
def transcodeStep (acc : String × String) (ic : ℕ × Cue) : String × String :=
  (acc.1 ++ toString ic.1 ++ "\n" ++
     decimal_to_vtt_time ic.2.start ++ " --> " ++ decimal_to_vtt_time ic.2.endTime ++ "\n" ++
     ic.2.text ++ "\n\n",
   (if ic.2.newParagraph then acc.2 ++ "\n" else acc.2) ++ ic.2.text)

/-- The whole cue loop: fold the loop body over the enumerated cues. -/
def transcode (cues : List Cue) : String × String :=
  cues.enum.foldl transcodeStep ("WEBVTT\n\n", "")

/-- Specification form of one subtitle block: index line, timing line,
text line, trailing blank line. -/
def cueBlock (idx : ℕ) (c : Cue) : String :=
  toString idx ++ "\n" ++
    decimal_to_vtt_time c.start ++ " --> " ++ decimal_to_vtt_time c.endTime ++ "\n" ++
    c.text ++ "\n\n"

/-- Specification form of the subtitle body: the blocks of all cues in
order, indexed sequentially from `n`. -/
def vttBlocks : ℕ → List Cue → String
  | _, [] => ""
  | n, c :: rest => cueBlock n c ++ vttBlocks (n + 1) rest

/-- Specification form of the plain text: cue texts concatenated in
order with no separator, with a newline inserted immediately before the
text of every cue whose new-paragraph flag is set. -/
def rawOf : List Cue → String
  | [] => ""
  | c :: rest => ((if c.newParagraph then "\n" else "") ++ c.text) ++ rawOf rest

/-! ## IdentifierResolver: `validate_and_parse_input` (lines 66-88) -/

/-- One token of the selection grammar, the regex alternative
`\d+|\d+-\d+`: either all digits, or two all-digit runs joined by a
single dash (so that splitting the token on the dash yields exactly its
two sides). -/
def tokenMatch (t : String) : Bool :=
  match pySplitOn t '-' with
  | [a] => isDigits a
  | [a, b] => isDigits a && isDigits b
  | _ => false

/-- The grammar check of lines 70-74: every comma-separated field of the
expression must be a valid token (an empty field fails `isDigits`, so
this matches the anchored regex on the whole expression). -/
def grammarOK (s : String) : Bool :=
  (pySplitOn s ',').all tokenMatch

/-- The loop body of lines 79-86 for one token: a dashed token is split
into `start` and `end`, raising for `start > end` and otherwise
contributing `range(start, end + 1)`; a plain token contributes its
singleton.  `int()` on a non-digit side raises a `ValueError`, and a
token with more than one dash makes the two-name unpacking raise. -/
def parseToken (part : String) : PyExcept (Finset ℤ) :=
  match pySplitOn part '-' with
  | [a, b] =>
    match pyIntParse a, pyIntParse b with
    | some s, some e =>
      if s > e then .error ("Invalid range: " ++ part ++ ". Start must be <= end.")
      else .ok (Finset.Icc s e)
    | _, _ => .error "ValueError: invalid literal for int"
  | [a] =>
    match pyIntParse a with
    | some n => .ok {n}
    | none => .error "ValueError: invalid literal for int"
  | _ => .error "ValueError: too many values to unpack"

/-- The accumulation loop of lines 76-88: fold the tokens left to right
into the `numbers` set, stopping at the first raising token. -/
def parseParts : List String → Finset ℤ → PyExcept (Finset ℤ)
  | [], numbers => .ok numbers
  | part :: rest, numbers =>
    match parseToken part with
    | .ok s => parseParts rest (numbers ∪ s)
    | .error e => .error e

/-- Embedding of `validate_and_parse_input` (src/main.py lines 66-88):
`"all"` short-circuits to the empty set, the grammar is checked before
any token is parsed, and the tokens are folded into a set. -/
def validate_and_parse_input (input_str : String) : PyExcept (Finset ℤ) :=
  if input_str = "all" then .ok ∅
  else if grammarOK input_str then parseParts (pySplitOn input_str ',') ∅
  else .error ("Invalid input format: " ++ input_str ++
    ". Expected numbers or ranges (e.g., 1,4-6,9-10).")

/-- Specification form of a token's contribution: a range token yields
the inclusive interval of its two sides, a plain token its singleton. -/
def tokenSpecSet (part : String) : Finset ℤ :=
  match pySplitOn part '-' with
  | [a, b] =>
    match pyIntParse a, pyIntParse b with
    | some s, some e => Finset.Icc s e
    | _, _ => ∅
  | [a] =>
    match pyIntParse a with
    | some n => {n}
    | none => ∅
  | _ => ∅

/-- A range token whose start exceeds its end. -/
def tokenBadRange (part : String) : Bool :=
  match pySplitOn part '-' with
  | [a, b] =>
    match pyIntParse a, pyIntParse b with
    | some s, some e => decide (s > e)
    | _, _ => false
  | _ => false

/-- Specification form of a whole valid expression's value: the union
of the contributions of its comma-separated tokens. -/
def exprSpecSet (s : String) : Finset ℤ :=
  (pySplitOn s ',').foldr (fun t acc => tokenSpecSet t ∪ acc) ∅

/-! ## Existing-ID scan: `get_existing_ids` (lines 91-106) -/

/-- Lines 97-98 for one filename: take the leading whitespace-delimited
token and parse it with `int`; `none` models the caught `IndexError`
(no token) or `ValueError` (non-numeric token). -/
def parseLeadingId (filename : String) : Option ℤ :=
  match pySplitWs filename with
  | [] => none
  | t :: _ => pyIntParse t

/-- The body of the scan loop of lines 94-101 for one filename: `.vtt`
files with a parsable leading token contribute their ID, every other
file is skipped (the `except` clause logs and continues). -/
def scanStep (acc : Finset ℤ) (filename : String) : Finset ℤ :=
  if pyEndsWith filename ".vtt" then
    match parseLeadingId filename with
    | some n => insert n acc
    | none => acc
  else acc

/-- Embedding of `get_existing_ids` (src/main.py lines 91-106) over the
list of filenames in the output directory. -/
def get_existing_ids (files : List String) : Finset ℤ :=
  files.foldl scanStep ∅

/-! ## CatalogFilter and Orchestrator: `main` (lines 108-169) -/

/-- The optional `plan` object of a catalog entry; the title fields and
the transcript reference are dynamic keys, hence optional. -/
structure Plan where
  titleJP : Option String
  titleEN : Option String
  transcriptId : Option ℤ
  deriving DecidableEq

/-- One entry of the catalog response's `data.modules` array. -/
structure CatalogEntry where
  id : ℤ
  plan : Option Plan
  deriving DecidableEq

/-- The `Video` model of src/main.py lines 10-13. -/
structure Video where
  video_id : ℤ
  title : String
  transcript_id : ℤ
  deriving DecidableEq

/-- The collection loop of `main` (src/main.py lines 142-157): skip
entries whose ID is not requested, entries without a `plan` key and
plans without a `transcriptId` key; then build the title from
`plan["titleJP"]` and `plan["titleEN"]` — a missing title key raises an
uncaught `KeyError` (`titleJP` is looked up first). -/
def buildVideosGo (ids : Finset ℤ) : List CatalogEntry → List Video → PyExcept (List Video)
  | [], acc => .ok acc.reverse
  | v :: rest, acc =>
    if v.id ∉ ids then buildVideosGo ids rest acc
    else
      match v.plan with
      | none => buildVideosGo ids rest acc
      | some p =>
        match p.transcriptId with
        | none => buildVideosGo ids rest acc
        | some t =>
          match p.titleJP with
          | none => .error "KeyError: titleJP"
          | some jp =>
            match p.titleEN with
            | none => .error "KeyError: titleEN"
            | some en => buildVideosGo ids rest (⟨v.id, jp ++ " | " ++ en, t⟩ :: acc)

/-- The `videos` list built by `main` lines 142-157, or the uncaught
`KeyError` that aborts the run. -/
def buildVideos (modules : List CatalogEntry) (ids : Finset ℤ) : PyExcept (List Video) :=
  buildVideosGo ids modules []

/-- Specification form of the filter (claim wording): an entry is
included iff its ID is requested and it carries a plan with a transcript
reference; the title joins the Japanese and English titles with " | ". -/
def specWorkItem (ids : Finset ℤ) (e : CatalogEntry) : Option Video :=
  match e.plan with
  | none => none
  | some p =>
    if e.id ∈ ids then
      match p.transcriptId, p.titleJP, p.titleEN with
      | some t, some jp, some en => some ⟨e.id, jp ++ " | " ++ en, t⟩
      | _, _, _ => none
    else none

/-- Both title fields are present wherever the collection loop will
look them up: for every requested entry whose plan carries a transcript
reference. -/
def titlesPresent (ids : Finset ℤ) (e : CatalogEntry) : Bool :=
  match e.plan with
  | none => true
  | some p =>
    if e.id ∈ ids then
      match p.transcriptId with
      | none => true
      | some _ => p.titleJP.isSome && p.titleEN.isSome
    else true

/-- Externally observable actions of a run, in order: a printed error
line, the opening of the HTTP session, and each HTTP GET. -/
inductive Event where
  | printError (msg : String)
  | openSession
  | netGet (url : String)
  deriving DecidableEq

/-- How the process ends: normal completion, the `NameError` on the
unbound `ids` after a caught parse error, or an uncaught `KeyError`
from the collection loop. -/
inductive Outcome where
  | normal
  | nameError
  | keyError (msg : String)
  deriving DecidableEq

/-- Observable summary of one run: its events, how it ended, and the
work set it processed. -/
structure RunResult where
  events : List Event
  outcome : Outcome
  videos : List Video
  deriving DecidableEq

/-- The catalog endpoint fetched at src/main.py line 125. -/
def contentUrl : String := "https://cijapanese.com/api/v1/content"

/-- The transcript endpoint fetched by `process_video` (line 42). -/
def transcriptUrl (t : ℤ) : String :=
  "https://cijapanese.com/api/v1/transcript?transcriptId=" ++ toString t

/-- Lines 129-131: the maximum catalog ID, at least 1. -/
def maxCatalogId (catalog : List CatalogEntry) : ℤ :=
  catalog.foldl (fun m e => max m e.id) 1

/-- Lines 128-134: an empty parsed set (the `"all"` sentinel) resolves
to `set(range(1, max_id + 1))`; otherwise the parsed set stands. -/
def resolveIds (ids0 : Finset ℤ) (catalog : List CatalogEntry) : Finset ℤ :=
  if ids0 = ∅ then Finset.Icc 1 (maxCatalogId catalog) else ids0

/-- Lines 137-139: subtract the on-disk IDs when any were found. -/
def subtractExisting (ids existing : Finset ℤ) : Finset ℤ :=
  if 0 < existing.card then ids \ existing else ids

/-- Model of `main` (src/main.py lines 108-169) on given catalog
contents and output-directory filenames, with every fetch succeeding.
When the expression is invalid, the `except` clause prints the error but
does not return, so the session still opens and the catalog is still
fetched before the unbound `ids` raises a `NameError` at line 128.
Otherwise the catalog is fetched, the ID set resolved and reduced by the
on-disk scan, the work items collected (an uncaught `KeyError` aborts
the run here), and one transcript GET is issued per work item. -/
def mainRun (input : String) (catalog : List CatalogEntry) (files : List String) : RunResult :=
  match validate_and_parse_input input with
  | .error e =>
    ⟨[.printError ("Error: " ++ e), .openSession, .netGet contentUrl], .nameError, []⟩
  | .ok ids0 =>
    let ids1 := resolveIds ids0 catalog
    let ids2 := subtractExisting ids1 (get_existing_ids files)
    match buildVideos catalog ids2 with
    | .error e => ⟨[.openSession, .netGet contentUrl], .keyError e, []⟩
    | .ok videos =>
      ⟨[.openSession, .netGet contentUrl] ++
         videos.map (fun v => .netGet (transcriptUrl v.transcript_id)),
       .normal, videos⟩

/-! ## Theorems -/

theorem transcode_loop (l : List Cue) : ∀ (n : ℕ) (v r : String),
    List.foldl transcodeStep (v, r) (List.enumFrom n l) = (v ++ vttBlocks n l, r ++ rawOf l) := by
  induction l with
  | nil =>
    intro n v r
    simp [vttBlocks, rawOf, String.append_empty]
  | cons c rest ih =>
    intro n v r
    show List.foldl transcodeStep (transcodeStep (v, r) (n, c)) (List.enumFrom (n + 1) rest) = _
    rw [ih]
    rw [show vttBlocks n (c :: rest) = cueBlock n c ++ vttBlocks (n + 1) rest from rfl]
    rw [show rawOf (c :: rest) = ((if c.newParagraph then "\n" else "") ++ c.text) ++ rawOf rest
      from rfl]
    unfold transcodeStep cueBlock
    cases hnp : c.newParagraph <;>
      simp [hnp, String.append_assoc, String.empty_append]

/-- C6: the plain-text output is the concatenation of the cue texts in
input order with no separator, except that a newline is inserted
immediately before a cue's text whenever its new-paragraph flag is set,
including a leading newline for a flagged first cue; cues
`[(A, not-new), (B, new)]` produce `"A\nB"`. -/
theorem C6_plain_text :
    (∀ cues : List Cue, (transcode cues).2 = rawOf cues) ∧
    (transcode [⟨0, 0, "A", false⟩, ⟨0, 0, "B", true⟩]).2 = "A\n" ++ "B" ∧
    (transcode [⟨0, 0, "A", true⟩, ⟨0, 0, "B", false⟩]).2 = "\n" ++ "A" ++ "B" := by
  have main : ∀ cues : List Cue, (transcode cues).2 = rawOf cues := by
    intro cues
    show (List.foldl transcodeStep ("WEBVTT\n\n", "") (List.enumFrom 0 cues)).2 = _
    rw [transcode_loop cues 0 "WEBVTT\n\n" ""]
    exact String.empty_append _
  refine ⟨main, ?_, ?_⟩
  · rw [main]; decide
  · rw [main]; decide

/-- C7: the subtitle output is the header line `WEBVTT` followed by a
blank line, then for each cue in input order a zero-based sequential
index line, a timing line built from the cue's start and end times, the
cue text line and a trailing blank line. -/
theorem C7_vtt_output :
    ∀ cues : List Cue, (transcode cues).1 = "WEBVTT\n\n" ++ vttBlocks 0 cues := by
  intro cues
  show (List.foldl transcodeStep ("WEBVTT\n\n", "") (List.enumFrom 0 cues)).1 = _
  rw [transcode_loop cues 0 "WEBVTT\n\n" ""]

theorem pyInt_nonneg {q : ℚ} (h : 0 ≤ q) : pyInt q = ⌊q⌋ := if_pos h

theorem pyFmt_natCast (wd k : ℕ) : pyFmt wd (k : ℤ) = padZeros wd (toString k) := by
  unfold pyFmt
  rw [if_neg (by exact_mod_cast Int.not_lt.mpr (Int.natCast_nonneg k))]
  rw [Int.toNat_natCast]

theorem fdiv_natCast3600 (w : ℕ) : Int.fdiv (w : ℤ) 3600 = ((w / 3600 : ℕ) : ℤ) := by
  rw [(by norm_num : ((3600 : ℤ)) = ((3600 : ℕ) : ℤ))]
  exact (Int.ofNat_fdiv w 3600).symm

theorem fmod_natCast3600 (w : ℕ) : Int.fmod (w : ℤ) 3600 = ((w % 3600 : ℕ) : ℤ) := by
  rw [(by norm_num : ((3600 : ℤ)) = ((3600 : ℕ) : ℤ))]
  exact (Int.ofNat_fmod w 3600).symm

theorem fdiv_natCast60 (w : ℕ) : Int.fdiv (w : ℤ) 60 = ((w / 60 : ℕ) : ℤ) := by
  rw [(by norm_num : ((60 : ℤ)) = ((60 : ℕ) : ℤ))]
  exact (Int.ofNat_fdiv w 60).symm

theorem fmod_natCast60 (w : ℕ) : Int.fmod (w : ℤ) 60 = ((w % 60 : ℕ) : ℤ) := by
  rw [(by norm_num : ((60 : ℤ)) = ((60 : ℕ) : ℤ))]
  exact (Int.ofNat_fmod w 60).symm

/-- C4: for every non-negative number of seconds the produced timestamp
is `HH:MM:SS.mmm` with hours, minutes and seconds obtained by integer
division and modulo of the whole seconds, milliseconds the truncated
fractional part times 1000, all zero-padded; in particular `3725.4567`
yields `"01:02:05.456"`. -/
theorem C4_vtt_time (q : ℚ) (hq : 0 ≤ q) :
    decimal_to_vtt_time q = vtt_time_spec q ∧
    decimal_to_vtt_time 3725.4567 = "01:02:05.456" := by
  have main : ∀ x : ℚ, 0 ≤ x → decimal_to_vtt_time x = vtt_time_spec x := by
    intro x hx
    have hfl : (0 : ℤ) ≤ ⌊x⌋ := Int.floor_nonneg.mpr hx
    obtain ⟨w, hw⟩ : ∃ w : ℕ, ⌊x⌋ = (w : ℤ) := ⟨⌊x⌋.toNat, (Int.toNat_of_nonneg hfl).symm⟩
    have hfrac : (0 : ℚ) ≤ (x - (((w : ℤ) : ℚ))) * 1000 := by
      have h1 : ((⌊x⌋ : ℤ) : ℚ) ≤ x := Int.floor_le x
      rw [hw] at h1
      nlinarith
    have hms : (0 : ℤ) ≤ ⌊(x - (((w : ℤ) : ℚ))) * 1000⌋ := Int.floor_nonneg.mpr hfrac
    obtain ⟨m, hm⟩ : ∃ m : ℕ, ⌊(x - (((w : ℤ) : ℚ))) * 1000⌋ = (m : ℤ) :=
      ⟨_, (Int.toNat_of_nonneg hms).symm⟩
    simp only [decimal_to_vtt_time, vtt_time_spec]
    rw [pyInt_nonneg hx, hw, pyInt_nonneg (by exact_mod_cast hfrac), hm]
    rw [Int.toNat_natCast, Int.toNat_natCast]
    rw [fdiv_natCast3600, fmod_natCast3600, fdiv_natCast60, fmod_natCast60]
    rw [pyFmt_natCast, pyFmt_natCast, pyFmt_natCast, pyFmt_natCast]
  refine ⟨main q hq, ?_⟩
  rw [main 3725.4567 (by norm_num)]
  have h1 : ⌊(3725.4567 : ℚ)⌋ = 3725 := by
    rw [Int.floor_eq_iff] <;> norm_num
  simp only [vtt_time_spec, h1]
  have h2 : ⌊((3725.4567 : ℚ) - ((3725 : ℤ) : ℚ)) * 1000⌋ = 456 := by
    rw [Int.floor_eq_iff] <;> norm_num
  rw [h2]
  decide

theorem C4_witness : decimal_to_vtt_time 3725.4567 = "01:02:05.456" :=
  (C4_vtt_time 3725.4567 (by norm_num)).2

theorem fetchAux_allFail {α : Type} (stub : ℕ → PyExcept α) (jitter : ℕ → ℚ) (n : ℕ) (d : ℚ)
    (c : ℕ → String) (hstub : ∀ j, stub j = .error (c j)) :
    ∀ fuel a, 1 ≤ fuel → a + fuel = n →
      fetchAux stub jitter n d fuel a =
        ⟨.failure n (c (n - 1)), (List.range' a (fuel - 1)).map (fun k => d * 2 ^ k + jitter k),
          List.range' a fuel⟩ := by
  intro fuel
  induction fuel with
  | zero => intro a h1 _; omega
  | succ f ihf =>
    intro a _ h2
    rw [fetchAux, hstub a]
    dsimp only
    by_cases ha : a = n - 1
    · have hf : f = 0 := by omega
      subst hf
      rw [if_pos ha, ha]
      simp [List.range'_succ]
    · have hf : 1 ≤ f := by omega
      obtain ⟨g, rfl⟩ : ∃ g, f = g + 1 := ⟨f - 1, by omega⟩
      rw [if_neg ha, ihf (a + 1) hf (by omega)]
      simp [List.range'_succ]

theorem fetchAux_success {α : Type} (stub : ℕ → PyExcept α) (jitter : ℕ → ℚ) (n : ℕ) (d : ℚ)
    (k : ℕ) (v : α) (hk : stub k = .ok v) (hbefore : ∀ j, j < k → ∃ e, stub j = .error e) :
    ∀ fuel a, a + fuel = n → a ≤ k → k < n →
      fetchAux stub jitter n d fuel a =
        ⟨.success v, (List.range' a (k - a)).map (fun j => d * 2 ^ j + jitter j),
          List.range' a (k - a + 1)⟩ := by
  intro fuel
  induction fuel with
  | zero => intro a h1 h2 h3; omega
  | succ f ihf =>
    intro a h1 h2 h3
    rcases Nat.eq_or_lt_of_le h2 with heq | hlt
    · subst heq
      rw [fetchAux, hk]
      dsimp only
      simp [List.range'_succ]
    · obtain ⟨e, he⟩ := hbefore a hlt
      rw [fetchAux, he]
      dsimp only
      rw [if_neg (by omega), ihf (a + 1) (by omega) (by omega) h3]
      obtain ⟨m, hm⟩ : ∃ m, k - a = m + 1 := ⟨k - a - 1, by omega⟩
      have hm2 : k - (a + 1) = m := by omega
      rw [hm, hm2]
      simp [List.range'_succ]

theorem chainLt_map_range {f : ℕ → ℚ} (hf : ∀ k, f k < f (k + 1)) :
    ∀ (m a : ℕ), List.Chain' (fun x y => x < y) ((List.range' a m).map f) := by
  intro m
  induction m with
  | zero => intro a; simp
  | succ g ihg =>
    intro a
    rw [List.range'_succ, List.map_cons]
    cases g with
    | zero => simp
    | succ g2 =>
      rw [List.range'_succ, List.map_cons, List.chain'_cons]
      have h := ihg (a + 1)
      rw [List.range'_succ, List.map_cons] at h
      exact ⟨hf a, h⟩

/-- C3: with every attempt failing, `fetch_with_backoff` makes exactly
`n` attempts, sleeps exactly `n - 1` times with delay
`initialDelay * 2 ^ attempt + jitter attempt`, the consecutive delays
strictly increasing, and ends in the terminal error carrying the
attempt count and the last underlying cause; with the first success at
attempt `k`, the stub's value is returned and no attempt beyond `k` is
made. -/
theorem C3_fetch_with_backoff {α : Type} (n : ℕ) (d : ℚ) (jitter : ℕ → ℚ)
    (hn : 1 ≤ n) (hd : 1 ≤ d) (hj0 : ∀ k, 0 ≤ jitter k) (hj1 : ∀ k, jitter k < 1) :
    (∀ (stub : ℕ → PyExcept α) (c : ℕ → String), (∀ j, stub j = .error (c j)) →
      (fetch_with_backoff stub jitter n d).attempts = List.range n ∧
      (fetch_with_backoff stub jitter n d).sleeps =
        (List.range (n - 1)).map (fun k => d * 2 ^ k + jitter k) ∧
      (fetch_with_backoff stub jitter n d).sleeps.length = n - 1 ∧
      (fetch_with_backoff stub jitter n d).sleeps.Chain' (fun x y => x < y) ∧
      (fetch_with_backoff stub jitter n d).result = .failure n (c (n - 1))) ∧
    (∀ (stub : ℕ → PyExcept α) (k : ℕ) (v : α), k < n → stub k = .ok v →
      (∀ j, j < k → ∃ e, stub j = .error e) →
      (fetch_with_backoff stub jitter n d).result = .success v ∧
      (fetch_with_backoff stub jitter n d).attempts = List.range (k + 1) ∧
      (fetch_with_backoff stub jitter n d).sleeps =
        (List.range k).map (fun j => d * 2 ^ j + jitter j)) := by
  have hmono : ∀ k : ℕ, d * 2 ^ k + jitter k < d * 2 ^ (k + 1) + jitter (k + 1) := by
    intro k
    have h2 : (1 : ℚ) ≤ 2 ^ k := one_le_pow₀ (by norm_num)
    have h3 : d * 2 ^ (k + 1) = d * 2 ^ k + d * 2 ^ k := by ring
    have h4 : (1 : ℚ) ≤ d * 2 ^ k := by nlinarith
    have h5 := hj0 (k + 1)
    have h6 := hj1 k
    nlinarith
  constructor
  · intro stub c hstub
    have h := fetchAux_allFail stub jitter n d c hstub n 0 hn (by omega)
    rw [fetch_with_backoff, h]
    refine ⟨by rw [List.range_eq_range'], by rw [List.range_eq_range'], ?_, ?_, rfl⟩
    · simp
    · exact chainLt_map_range hmono (n - 1) 0
  · intro stub k v hkn hk hbefore
    have h := fetchAux_success stub jitter n d k v hk hbefore n 0 (by omega) (by omega) hkn
    rw [fetch_with_backoff, h]
    rw [Nat.sub_zero]
    exact ⟨rfl, by rw [List.range_eq_range'], by rw [List.range_eq_range']⟩

theorem C3_witness :
    ((0 : ℚ) ≤ 0 ∧ (0 : ℚ) < 1) ∧
    fetch_with_backoff (fun _ => (.error "boom" : PyExcept ℕ)) (fun _ => 0) 3 1 =
      ⟨.failure 3 "boom", [1, 2], [0, 1, 2]⟩ ∧
    fetch_with_backoff
        (fun j => if j < 2 then (.error "boom" : PyExcept ℕ) else .ok 7) (fun _ => 0) 3 1 =
      ⟨.success 7, [1, 2], [0, 1, 2]⟩ := by
  have hall := (C3_fetch_with_backoff (α := ℕ) 3 1 (fun _ => 0) (by norm_num) (le_refl 1)
      (fun _ => le_refl 0) (fun _ => by norm_num)).1
      (fun _ => .error "boom") (fun _ => "boom") (fun _ => rfl)
  have hsucc := (C3_fetch_with_backoff (α := ℕ) 3 1 (fun _ => 0) (by norm_num) (le_refl 1)
      (fun _ => le_refl 0) (fun _ => by norm_num)).2
      (fun j => if j < 2 then .error "boom" else .ok 7) 2 7 (by norm_num) rfl
      (fun j hj => ⟨"boom", by interval_cases j <;> rfl⟩)
  constructor
  · exact ⟨le_refl 0, by norm_num⟩
  constructor
  · obtain ⟨h1, h2, _, _, h5⟩ := hall
    refine FetchTrace.ext h5 (h2.trans ?_) (h1.trans ?_)
    · show List.map _ [0, 1] = _
      norm_num
    · rfl
  · obtain ⟨h1, h2, h3⟩ := hsucc
    refine FetchTrace.ext h1 (h3.trans ?_) (h2.trans ?_)
    · show List.map _ [0, 1] = _
      norm_num
    · rfl

theorem splitOnP_ne_nil (p : Char → Bool) : ∀ l : List Char, splitOnP p l ≠ [] := by
  intro l
  induction l with
  | nil => simp [splitOnP]
  | cons c rest ih =>
    show (if p c then [] :: splitOnP p rest else
      match splitOnP p rest with
      | t :: ts => (c :: t) :: ts
      | [] => [[c]]) ≠ []
    by_cases hc : p c
    · rw [if_pos hc]; simp
    · rw [if_neg hc]
      cases h : splitOnP p rest with
      | nil => simp
      | cons t ts => simp

theorem pySplitOn_ne_nil (s : String) (sep : Char) : pySplitOn s sep ≠ [] := by
  unfold pySplitOn
  intro h
  exact splitOnP_ne_nil _ s.toList (List.map_eq_nil.mp h)

theorem pyIntParse_digits (s : String) (h : isDigits s = true) :
    pyIntParse s = some ((digitsToNat s.toList : ℕ) : ℤ) := by
  unfold isDigits at h
  rw [Bool.and_eq_true] at h
  obtain ⟨h1, h2⟩ := h
  unfold pyIntParse
  cases hl : s.toList with
  | nil => rw [hl] at h1; simp at h1
  | cons c rest =>
    rw [hl] at h2
    have hcd : Char.isDigit c = true := by
      rw [List.all_cons, Bool.and_eq_true] at h2
      exact h2.1
    have hcm : ¬c = '-' := by
      intro hc; rw [hc] at hcd; exact absurd hcd (by decide)
    have hcp : ¬c = '+' := by
      intro hc; rw [hc] at hcd; exact absurd hcd (by decide)
    dsimp only
    rw [if_neg hcm, if_neg hcp, if_pos h2]

theorem parseToken_ok (t : String) (hm : tokenMatch t = true) (hb : tokenBadRange t = false) :
    parseToken t = .ok (tokenSpecSet t) ∧ (tokenSpecSet t).Nonempty := by
  unfold tokenMatch at hm
  unfold tokenBadRange at hb
  unfold parseToken tokenSpecSet
  cases hsp : pySplitOn t '-' with
  | nil => rw [hsp] at hm; simp at hm
  | cons a rest =>
    cases rest with
    | nil =>
      rw [hsp] at hm
      dsimp only at hm ⊢
      rw [pyIntParse_digits a hm]
      exact ⟨rfl, Finset.singleton_nonempty _⟩
    | cons b rest2 =>
      cases rest2 with
      | nil =>
        rw [hsp] at hm hb
        dsimp only at hm hb ⊢
        rw [Bool.and_eq_true] at hm
        rw [pyIntParse_digits a hm.1, pyIntParse_digits b hm.2] at hb ⊢
        dsimp only at hb ⊢
        rw [decide_eq_false_iff_not, not_lt] at hb
        rw [if_neg (not_lt.mpr hb)]
        exact ⟨rfl, Finset.nonempty_Icc.mpr hb⟩
      | cons d rest3 => rw [hsp] at hm; simp at hm

theorem parseToken_badRange (t : String) (hb : tokenBadRange t = true) :
    ∃ e, parseToken t = .error e := by
  unfold tokenBadRange at hb
  unfold parseToken
  cases hsp : pySplitOn t '-' with
  | nil => rw [hsp] at hb; simp at hb
  | cons a rest =>
    cases rest with
    | nil => rw [hsp] at hb; simp at hb
    | cons b rest2 =>
      cases rest2 with
      | nil =>
        rw [hsp] at hb
        dsimp only at hb ⊢
        cases hpa : pyIntParse a with
        | none => rw [hpa] at hb; simp at hb
        | some sa =>
          cases hpb : pyIntParse b with
          | none => rw [hpa, hpb] at hb; simp at hb
          | some sb =>
            rw [hpa, hpb] at hb
            dsimp only at hb ⊢
            rw [decide_eq_true_iff] at hb
            rw [if_pos hb]
            exact ⟨_, rfl⟩
      | cons d rest3 => rw [hsp] at hb; simp at hb

theorem parseParts_ok_of_tokens (parts : List String)
    (h : ∀ t ∈ parts, parseToken t = .ok (tokenSpecSet t)) :
    ∀ acc, parseParts parts acc =
      .ok (acc ∪ parts.foldr (fun t r => tokenSpecSet t ∪ r) ∅) := by
  induction parts with
  | nil => intro acc; simp [parseParts]
  | cons t rest ih =>
    intro acc
    rw [parseParts, h t (List.mem_cons_self t rest)]
    dsimp only
    rw [ih (fun u hu => h u (List.mem_cons_of_mem t hu)) (acc ∪ tokenSpecSet t)]
    rw [List.foldr_cons, Finset.union_assoc]

theorem parseParts_err_of_badRange (parts : List String)
    (hall : ∀ t ∈ parts, tokenMatch t = true) :
    (∃ t ∈ parts, tokenBadRange t = true) →
    ∀ acc, ∃ e, parseParts parts acc = .error e := by
  induction parts with
  | nil => intro h; simp at h
  | cons t rest ih =>
    intro hbad acc
    by_cases hb : tokenBadRange t = true
    · obtain ⟨e, he⟩ := parseToken_badRange t hb
      rw [parseParts, he]
      exact ⟨e, rfl⟩
    · have hb2 : tokenBadRange t = false := by simpa using hb
      have hok := parseToken_ok t (hall t (List.mem_cons_self t rest)) hb2
      rw [parseParts, hok.1]
      refine ih (fun u hu => hall u (List.mem_cons_of_mem t hu)) ?_ _
      rcases hbad with ⟨u, hu, hbu⟩
      rcases List.mem_cons.mp hu with rfl | hu2
      · exact absurd hbu hb
      · exact ⟨u, hu2, hbu⟩

theorem parseParts_sub (parts : List String) :
    ∀ acc r, parseParts parts acc = .ok r → acc ⊆ r := by
  induction parts with
  | nil =>
    intro acc r h
    rw [parseParts] at h
    cases h
    exact Finset.Subset.refl _
  | cons t rest ih =>
    intro acc r h
    rw [parseParts] at h
    cases hpt : parseToken t with
    | ok s =>
      rw [hpt] at h
      exact Finset.Subset.trans (Finset.subset_union_left) (ih _ _ h)
    | error e => rw [hpt] at h; cases h

theorem parseToken_nonempty (t : String) (s0 : Finset ℤ) (h : parseToken t = .ok s0) :
    s0.Nonempty := by
  unfold parseToken at h
  cases hsp : pySplitOn t '-' with
  | nil =>
    rw [hsp] at h; dsimp only at h; exact PyExcept.noConfusion h
  | cons a rest =>
    cases rest with
    | nil =>
      rw [hsp] at h
      dsimp only at h
      cases hpa : pyIntParse a with
      | none => rw [hpa] at h; dsimp only at h; exact PyExcept.noConfusion h
      | some n =>
        rw [hpa] at h
        dsimp only at h
        injection h with h2
        rw [← h2]
        exact Finset.singleton_nonempty _
    | cons b rest2 =>
      cases rest2 with
      | nil =>
        rw [hsp] at h
        dsimp only at h
        cases hpa : pyIntParse a with
        | none => rw [hpa] at h; dsimp only at h; exact PyExcept.noConfusion h
        | some sa =>
          cases hpb : pyIntParse b with
          | none => rw [hpa, hpb] at h; dsimp only at h; exact PyExcept.noConfusion h
          | some sb =>
            rw [hpa, hpb] at h
            dsimp only at h
            by_cases hlt : sa > sb
            · rw [if_pos hlt] at h; exact PyExcept.noConfusion h
            · rw [if_neg hlt] at h
              injection h with h2
              rw [← h2]
              exact Finset.nonempty_Icc.mpr (not_lt.mp hlt)
      | cons d rest3 =>
        rw [hsp] at h; dsimp only at h; exact PyExcept.noConfusion h

theorem parse_ok_nonempty (s : String) (hne : s ≠ "all") (r : Finset ℤ)
    (h : validate_and_parse_input s = .ok r) : r.Nonempty := by
  unfold validate_and_parse_input at h
  rw [if_neg hne] at h
  by_cases hg : grammarOK s = true
  · rw [if_pos hg] at h
    cases hp : pySplitOn s ',' with
    | nil => exact absurd hp (pySplitOn_ne_nil s ',')
    | cons t rest =>
      rw [hp, parseParts] at h
      cases hpt : parseToken t with
      | error e => rw [hpt] at h; dsimp only at h; exact PyExcept.noConfusion h
      | ok s0 =>
        rw [hpt] at h
        dsimp only at h
        have hsub := parseParts_sub rest (∅ ∪ s0) r h
        have hs0 := parseToken_nonempty t s0 hpt
        refine hs0.mono (Finset.Subset.trans ?_ hsub)
        rw [Finset.empty_union]
  · rw [if_neg hg] at h
    exact PyExcept.noConfusion h

/-- C5: `parse("all")` returns the empty set without raising; any other
expression conforming to the comma-separated grammar with no reversed
range parses to exactly the union of its tokens' singletons and
inclusive ranges (`"1,4-6,9-10"` gives `{1,4,5,6,9,10}`); and parsing
raises exactly when the expression mismatches the grammar or some range
has start greater than end. -/
theorem C5_parse_characterization :
    validate_and_parse_input "all" = .ok ∅ ∧
    (∀ s : String, s ≠ "all" → grammarOK s = true →
      (∀ t ∈ pySplitOn s ',', tokenBadRange t = false) →
      validate_and_parse_input s = .ok (exprSpecSet s)) ∧
    (∀ s : String, s ≠ "all" →
      ((∃ e, validate_and_parse_input s = .error e) ↔
        (grammarOK s = false ∨ ∃ t ∈ pySplitOn s ',', tokenBadRange t = true))) ∧
    validate_and_parse_input "1,4-6,9-10" = .ok {1, 4, 5, 6, 9, 10} := by
  have hmain : ∀ s : String, s ≠ "all" → grammarOK s = true →
      (∀ t ∈ pySplitOn s ',', tokenBadRange t = false) →
      validate_and_parse_input s = .ok (exprSpecSet s) := by
    intro s hne hg hb
    unfold validate_and_parse_input
    rw [if_neg hne, if_pos hg]
    have htok : ∀ t ∈ pySplitOn s ',', parseToken t = .ok (tokenSpecSet t) := by
      intro t ht
      have hmt : tokenMatch t = true := by
        unfold grammarOK at hg
        exact List.all_eq_true.mp hg t ht
      exact (parseToken_ok t hmt (hb t ht)).1
    rw [parseParts_ok_of_tokens (pySplitOn s ',') htok ∅]
    rw [Finset.empty_union]
    rfl
  refine ⟨rfl, hmain, ?_, by decide⟩
  intro s hne
  constructor
  · rintro ⟨e, he⟩
    by_cases hg : grammarOK s = true
    · right
      by_contra hno
      push_neg at hno
      have hb : ∀ t ∈ pySplitOn s ',', tokenBadRange t = false := by
        intro t ht
        simpa using hno t ht
      rw [hmain s hne hg hb] at he
      exact PyExcept.noConfusion he
    · left
      simpa using hg
  · rintro (hg | ⟨t, ht, hbt⟩)
    · unfold validate_and_parse_input
      rw [if_neg hne, if_neg (by simp [hg])]
      exact ⟨_, rfl⟩
    · by_cases hg : grammarOK s = true
      · have hall : ∀ u ∈ pySplitOn s ',', tokenMatch u = true := by
          intro u hu
          unfold grammarOK at hg
          exact List.all_eq_true.mp hg u hu
        obtain ⟨e, he⟩ := parseParts_err_of_badRange (pySplitOn s ',') hall ⟨t, ht, hbt⟩ ∅
        unfold validate_and_parse_input
        rw [if_neg hne, if_pos hg, he]
        exact ⟨e, rfl⟩
      · unfold validate_and_parse_input
        rw [if_neg hne, if_neg hg]
        exact ⟨_, rfl⟩

theorem C5_witness :
    validate_and_parse_input "2-4" = .ok (exprSpecSet "2-4") ∧ exprSpecSet "2-4" = {2, 3, 4} :=
  ⟨C5_parse_characterization.2.1 "2-4" (by decide) (by decide) (by decide), by decide⟩

theorem mem_foldl_scanStep : ∀ (files : List String) (acc : Finset ℤ) (x : ℤ),
    x ∈ files.foldl scanStep acc ↔
      x ∈ acc ∨ ∃ f ∈ files, pyEndsWith f ".vtt" = true ∧ parseLeadingId f = some x := by
  intro files
  induction files with
  | nil => intro acc x; simp
  | cons f rest ih =>
    intro acc x
    rw [List.foldl_cons, ih]
    have hstep : x ∈ scanStep acc f ↔
        x ∈ acc ∨ (pyEndsWith f ".vtt" = true ∧ parseLeadingId f = some x) := by
      unfold scanStep
      by_cases he : pyEndsWith f ".vtt" = true
      · rw [if_pos he]
        cases hp : parseLeadingId f with
        | none => simp [he, hp]
        | some n =>
          simp only [Finset.mem_insert, he, hp, Option.some.injEq, true_and]
          constructor
          · rintro (rfl | hx)
            · exact Or.inr rfl
            · exact Or.inl hx
          · rintro (hx | rfl)
            · exact Or.inr hx
            · exact Or.inl rfl
      · rw [if_neg he]
        simp [he]
    rw [hstep, List.exists_mem_cons_iff]
    tauto

/-- C8: an ID is in the existing-ID index iff some filename in the
output directory carries the `.vtt` extension and a leading
whitespace-delimited token parsing to that ID; a malformed filename
contributes nothing and never makes the scan fail. -/
theorem C8_existing_ids :
    (∀ (files : List String) (n : ℤ),
      n ∈ get_existing_ids files ↔
        ∃ f ∈ files, pyEndsWith f ".vtt" = true ∧ parseLeadingId f = some n) ∧
    (∀ (pre post : List String) (f : String),
      pyEndsWith f ".vtt" = false ∨ parseLeadingId f = none →
      get_existing_ids (pre ++ f :: post) = get_existing_ids (pre ++ post)) := by
  have hmem : ∀ (files : List String) (n : ℤ),
      n ∈ get_existing_ids files ↔
        ∃ g ∈ files, pyEndsWith g ".vtt" = true ∧ parseLeadingId g = some n := by
    intro files n
    unfold get_existing_ids
    rw [mem_foldl_scanStep]
    simp
  refine ⟨hmem, ?_⟩
  intro pre post f hmal
  apply Finset.ext
  intro x
  rw [hmem, hmem]
  have hnf : ¬(pyEndsWith f ".vtt" = true ∧ parseLeadingId f = some x) := by
    rintro ⟨h1, h2⟩
    rcases hmal with h3 | h3
    · rw [h1] at h3; exact Bool.noConfusion h3
    · rw [h2] at h3; exact Option.noConfusion h3
  constructor
  · rintro ⟨g, hg, hgp⟩
    rcases List.mem_append.mp hg with h1 | h1
    · exact ⟨g, List.mem_append.mpr (Or.inl h1), hgp⟩
    · rcases List.mem_cons.mp h1 with rfl | h2
      · exact absurd hgp hnf
      · exact ⟨g, List.mem_append.mpr (Or.inr h2), hgp⟩
  · rintro ⟨g, hg, hgp⟩
    rcases List.mem_append.mp hg with h1 | h1
    · exact ⟨g, List.mem_append.mpr (Or.inl h1), hgp⟩
    · exact ⟨g, List.mem_append.mpr (Or.inr (List.mem_cons_of_mem f h1)), hgp⟩

theorem C8_witness :
    (pyEndsWith "junk.vtt" ".vtt" = false ∨ parseLeadingId "junk.vtt" = none) ∧
    get_existing_ids ["junk.vtt", "0003 a.vtt"] = get_existing_ids ["0003 a.vtt"] :=
  ⟨Or.inr (by decide), C8_existing_ids.2 [] ["0003 a.vtt"] "junk.vtt" (Or.inr (by decide))⟩

theorem buildVideosGo_ok (ids : Finset ℤ) : ∀ (modules : List CatalogEntry) (acc : List Video),
    (∀ e ∈ modules, titlesPresent ids e = true) →
    buildVideosGo ids modules acc = .ok (acc.reverse ++ modules.filterMap (specWorkItem ids)) := by
  intro modules
  induction modules with
  | nil => intro acc h; simp [buildVideosGo]
  | cons v rest ih =>
    intro acc h
    have hrest := fun e he => h e (List.mem_cons_of_mem v he)
    have hv := h v (List.mem_cons_self v rest)
    rw [buildVideosGo]
    by_cases hid : v.id ∈ ids
    · rw [if_neg (not_not_intro hid)]
      cases hp : v.plan with
      | none =>
        dsimp only
        rw [ih acc hrest]
        have hswi : specWorkItem ids v = none := by unfold specWorkItem; rw [hp]
        simp [List.filterMap_cons, hswi]
      | some p =>
        dsimp only
        cases ht : p.transcriptId with
        | none =>
          dsimp only
          rw [ih acc hrest]
          have hswi : specWorkItem ids v = none := by
            unfold specWorkItem
            rw [hp]
            dsimp only
            rw [if_pos hid, ht]
          simp [List.filterMap_cons, hswi]
        | some t =>
          unfold titlesPresent at hv
          rw [hp] at hv
          dsimp only at hv
          rw [if_pos hid, ht] at hv
          dsimp only at hv
          rw [Bool.and_eq_true] at hv
          obtain ⟨jp, hjp⟩ := Option.isSome_iff_exists.mp hv.1
          obtain ⟨en, hen⟩ := Option.isSome_iff_exists.mp hv.2
          dsimp only
          rw [hjp, hen]
          dsimp only
          rw [ih (⟨v.id, jp ++ " | " ++ en, t⟩ :: acc) hrest]
          have hswi : specWorkItem ids v = some ⟨v.id, jp ++ " | " ++ en, t⟩ := by
            unfold specWorkItem
            rw [hp]
            dsimp only
            rw [if_pos hid, ht, hjp, hen]
          simp [List.filterMap_cons, hswi, List.reverse_cons, List.append_assoc]
    · rw [if_pos hid]
      rw [ih acc hrest]
      have hswi : specWorkItem ids v = none := by
        unfold specWorkItem
        cases hp : v.plan with
        | none => rfl
        | some p => dsimp only; rw [if_neg hid]
      simp [List.filterMap_cons, hswi]

/-- C9: the collection loop includes an entry exactly when its ID is
requested and it carries a plan with a transcript reference; entries
missing the plan or the reference are silently skipped; included items
keep catalog order and carry the title `titleJP ++ " | " ++ titleEN`. -/
theorem C9_catalog_filter (modules : List CatalogEntry) (ids : Finset ℤ)
    (h : ∀ e ∈ modules, titlesPresent ids e = true) :
    buildVideos modules ids = .ok (modules.filterMap (specWorkItem ids)) := by
  unfold buildVideos
  rw [buildVideosGo_ok ids modules [] h]
  rfl

theorem C9_witness :
    buildVideos
        [⟨1, some ⟨some "JP1", some "EN1", some 10⟩⟩, ⟨2, none⟩,
          ⟨3, some ⟨some "JP3", some "EN3", none⟩⟩, ⟨4, some ⟨some "JP4", some "EN4", some 11⟩⟩]
        {1, 2, 3} =
      .ok [⟨1, "JP1" ++ " | " ++ "EN1", 10⟩] := by
  have h := C9_catalog_filter
    [⟨1, some ⟨some "JP1", some "EN1", some 10⟩⟩, ⟨2, none⟩,
      ⟨3, some ⟨some "JP3", some "EN3", none⟩⟩, ⟨4, some ⟨some "JP4", some "EN4", some 11⟩⟩]
    {1, 2, 3} (by decide)
  rw [h]
  decide

theorem buildVideosGo_err (ids : Finset ℤ) (e : CatalogEntry) (p : Plan) (t : ℤ)
    (hid : e.id ∈ ids) (hp : e.plan = some p) (ht : p.transcriptId = some t)
    (hbad : p.titleJP = none ∨ p.titleEN = none) :
    ∀ (modules : List CatalogEntry) (acc : List Video), e ∈ modules →
      ∃ err, buildVideosGo ids modules acc = .error err := by
  intro modules
  induction modules with
  | nil => intro acc h; simp at h
  | cons v rest ih =>
    intro acc hmem
    rw [buildVideosGo]
    by_cases hv : v = e
    · subst hv
      rw [if_neg (not_not_intro hid), hp]
      dsimp only
      rw [ht]
      dsimp only
      rcases hbad with hbj | hbe
      · rw [hbj]
        exact ⟨_, rfl⟩
      · cases hjp : p.titleJP with
        | none => exact ⟨_, rfl⟩
        | some jp =>
          dsimp only
          rw [hbe]
          exact ⟨_, rfl⟩
    · have hmem2 : e ∈ rest := by
        rcases List.mem_cons.mp hmem with h1 | h1
        · exact absurd h1.symm hv
        · exact h1
      by_cases hvid : v.id ∈ ids
      · rw [if_neg (not_not_intro hvid)]
        cases hvp : v.plan with
        | none => exact ih acc hmem2
        | some vp =>
          dsimp only
          cases hvt : vp.transcriptId with
          | none => exact ih acc hmem2
          | some vt =>
            dsimp only
            cases hvj : vp.titleJP with
            | none => exact ⟨_, rfl⟩
            | some vjp =>
              dsimp only
              cases hve : vp.titleEN with
              | none => exact ⟨_, rfl⟩
              | some ven => exact ih _ hmem2
      · rw [if_pos hvid]
        exact ih acc hmem2

/-- C10: a requested catalog entry carrying a plan with a transcript
reference but missing a title field makes the collection loop raise an
uncaught key-lookup error: the whole run aborts right after the catalog
fetch, with no work item processed and no transcript fetched — the
entry is neither silently excluded nor handled as a per-item failure. -/
theorem C10_missing_title_aborts (input : String) (catalog : List CatalogEntry)
    (files : List String) (ids0 : Finset ℤ) (e : CatalogEntry) (p : Plan) (t : ℤ)
    (hparse : validate_and_parse_input input = .ok ids0)
    (he : e ∈ catalog)
    (hid : e.id ∈ subtractExisting (resolveIds ids0 catalog) (get_existing_ids files))
    (hp : e.plan = some p) (ht : p.transcriptId = some t)
    (hbad : p.titleJP = none ∨ p.titleEN = none) :
    ∃ err, mainRun input catalog files =
      ⟨[.openSession, .netGet contentUrl], .keyError err, []⟩ := by
  obtain ⟨err, herr⟩ := buildVideosGo_err
    (subtractExisting (resolveIds ids0 catalog) (get_existing_ids files)) e p t hid hp ht hbad
    catalog [] he
  refine ⟨err, ?_⟩
  simp only [mainRun, hparse, buildVideos]
  rw [herr]

theorem C10_witness :
    ∃ err, mainRun "5" [⟨5, some ⟨none, some "E", some 9⟩⟩] [] =
      ⟨[.openSession, .netGet contentUrl], .keyError err, []⟩ :=
  C10_missing_title_aborts "5" [⟨5, some ⟨none, some "E", some 9⟩⟩] [] {5}
    ⟨5, some ⟨none, some "E", some 9⟩⟩ ⟨none, some "E", some 9⟩ 9
    (by decide) (by decide) (by decide) rfl rfl (Or.inl rfl)

theorem buildVideosGo_emptyIds (modules : List CatalogEntry) :
    ∀ acc, buildVideosGo (∅ : Finset ℤ) modules acc = .ok acc.reverse := by
  induction modules with
  | nil => intro acc; rfl
  | cons v rest ih =>
    intro acc
    rw [buildVideosGo, if_pos (Finset.not_mem_empty v.id)]
    exact ih acc

/-- C2: re-running with an explicit expression whose IDs are all already
present in the existing-ID index yields an empty work set and issues no
network request beyond the catalog fetch that opens every run. -/
theorem C2_rerun_idempotent (s : String) (ids0 : Finset ℤ) (catalog : List CatalogEntry)
    (files : List String)
    (hall : s ≠ "all")
    (hparse : validate_and_parse_input s = .ok ids0)
    (hsub : ids0 ⊆ get_existing_ids files) :
    mainRun s catalog files = ⟨[.openSession, .netGet contentUrl], .normal, []⟩ := by
  have hne : ids0.Nonempty := parse_ok_nonempty s hall ids0 hparse
  have hex : (get_existing_ids files).Nonempty := hne.mono hsub
  have h1 : resolveIds ids0 catalog = ids0 := by
    unfold resolveIds
    rw [if_neg (Finset.nonempty_iff_ne_empty.mp hne)]
  have h2 : subtractExisting ids0 (get_existing_ids files) = ∅ := by
    unfold subtractExisting
    rw [if_pos (Finset.card_pos.mpr hex), Finset.sdiff_eq_empty_iff_subset.mpr hsub]
  simp only [mainRun, hparse, h1, h2, buildVideos, buildVideosGo_emptyIds]
  simp

theorem C2_witness :
    mainRun "3" [] ["0003 a.vtt"] = ⟨[.openSession, .netGet contentUrl], .normal, []⟩ :=
  C2_rerun_idempotent "3" {3} [] ["0003 a.vtt"] (by decide) (by decide) (by decide)

/-- C1: an invalid selection expression does not stop the run before
network activity, contrary to the specification: the parse error is
caught and printed, but execution falls through, the HTTP session opens
and the catalog GET is issued, and only then does the run die with a
`NameError` on the unbound `ids` variable. -/
theorem C1_invalid_input_still_fetches :
    mainRun "abc" [] [] =
      ⟨[.printError
          "Error: Invalid input format: abc. Expected numbers or ranges (e.g., 1,4-6,9-10).",
        .openSession, .netGet contentUrl], .nameError, []⟩ ∧
    Event.netGet contentUrl ∈ (mainRun "abc" [] []).events := by
  constructor
  · decide
  · decide

end CijSubs
